import Mathlib

/-!
Verification development for the Graphite architectural simulator.

The definitions below are a shallow embedding of the core subsystems:
the per-tile performance model (`src/common/performance_model/core_perf_model.cc`
together with the concrete MagicPep model in
`src/common/performance_model/performance_models/magic_pep_performance_model.cc`),
the MCP broadcast loop (`src/common/system/mcp.cc`) and the LCP packet
dispatch (`src/common/system/lcp.cc`).  Machine integers (`UInt64` cycle
counters, queue sizes) are modelled by `Nat`; the `volatile float`
frequency bookkeeping is modelled with exact rationals `ℚ`; fatal
`LOG_ASSERT_ERROR` terminations and the two control-flow exceptions are
modelled with explicit result constructors.
-/

namespace Graphite

/-! ## Instruction and dynamic-info data model -/

/-- Location class of an operand (`Operand::MEMORY`, registers, immediates). -/
inductive OperandType
  | MEMORY
  | REG
  | IMMEDIATE
deriving DecidableEq, Repr

/-- Direction of an operand (`Operand::READ` / `Operand::WRITE`). -/
inductive OperandDirection
  | READ
  | WRITE
deriving DecidableEq, Repr

/-- One operand of an instruction, with its location class and direction. -/
structure Operand where
  m_type : OperandType
  m_direction : OperandDirection
deriving DecidableEq, Repr

/-- Instruction type tags.  The MagicPep model distinguishes
`INST_RECV`, `INST_SYNC` and `INST_SPAWN`; everything else falls in the
default branch of its `switch`. -/
inductive InstructionType
  | INST_GENERIC
  | INST_BRANCH
  | INST_MEMORY
  | INST_RECV
  | INST_SYNC
  | INST_SPAWN
deriving DecidableEq, Repr

/-- An instruction: a type tag, an ordered operand list and a static cost
in cycles (`Instruction::getCost`). -/
structure Instruction where
  type : InstructionType
  operands : List Operand
  cost : Nat
deriving DecidableEq, Repr

/-- Discriminant of a `DynamicInstructionInfo`. -/
inductive DynInfoType
  | MEMORY_READ
  | MEMORY_WRITE
  | BRANCH
deriving DecidableEq, Repr

/-- Memory payload of a dynamic fact: address and latency. -/
structure MemoryInfo where
  addr : Nat
  latency : Nat
deriving DecidableEq, Repr

/-- A dynamic fact produced by the functional side and consumed in FIFO
order by the performance model. -/
structure DynamicInstructionInfo where
  type : DynInfoType
  memory_info : MemoryInfo
deriving DecidableEq, Repr

/-- An ordered sequence of instructions with the owning/`isDynamic` flag. -/
structure BasicBlock where
  isDynamic : Bool
  insns : List Instruction
deriving DecidableEq, Repr

/-! ## CorePerfModel state

State of one `CorePerfModel` (specialised to the MagicPep concrete model,
which carries the extra `m_instruction_count`).  The process-wide
configuration flag `Config::getEnablePerformanceModeling()` and the fact
of being the MCP core (checked by `enable()`) are read-only after init,
so they are carried as constant fields of the state. -/
structure PerfState where
  cycle_count : Nat
  instruction_count : Nat
  current_ins_index : Nat
  basic_block_queue : List BasicBlock
  dynamic_info_queue : List DynamicInstructionInfo
  enabled : Bool
  frequency : ℚ
  average_frequency : ℚ
  total_time : ℚ
  checkpointed_cycle_count : Nat
  /-- `Config::getEnablePerformanceModeling()`: process-wide, fixed. -/
  perf_modeling : Bool
  /-- whether this model's core is the MCP core (`getMCPCoreNum()` test). -/
  is_mcp : Bool
deriving DecidableEq, Repr

/-- Constructor state (`CorePerfModel::CorePerfModel`): zero counters,
empty queues, disabled. -/
def initPerfState (f : ℚ) (perf_modeling is_mcp : Bool) : PerfState :=
  { cycle_count := 0
    instruction_count := 0
    current_ins_index := 0
    basic_block_queue := []
    dynamic_info_queue := []
    enabled := false
    frequency := f
    average_frequency := 0
    total_time := 0
    checkpointed_cycle_count := 0
    perf_modeling := perf_modeling
    is_mcp := is_mcp }

/-! ## Simple operations of CorePerfModel -/

/-- `CorePerfModel::enable`: the MCP perf model is never enabled. -/
def enable (s : PerfState) : PerfState :=
  if s.is_mcp then s else { s with enabled := true }

/-- `CorePerfModel::disable`. -/
def disable (s : PerfState) : PerfState :=
  { s with enabled := false }

/-- `CorePerfModel::setCycleCount` (thread start). -/
def setCycleCount (s : PerfState) (c : Nat) : PerfState :=
  { s with checkpointed_cycle_count := c, cycle_count := c }

/-- `CorePerfModel::recomputeAverageFrequency`, with the `volatile float`
arithmetic idealised over `ℚ`:
`cycles_elapsed = cycle_count - checkpointed_cycle_count`;
`total_cycles_executed = average_frequency * total_time + cycles_elapsed`;
`total_time_taken = total_time + cycles_elapsed / frequency`; then the
three assignments in source order. -/
def recomputeAverageFrequency (s : PerfState) : PerfState :=
  let cycles_elapsed : ℚ := ((s.cycle_count - s.checkpointed_cycle_count : Nat) : ℚ)
  let total_cycles_executed : ℚ := s.average_frequency * s.total_time + cycles_elapsed
  let total_time_taken : ℚ := s.total_time + cycles_elapsed / s.frequency
  { s with
      average_frequency := total_cycles_executed / total_time_taken
      total_time := total_time_taken
      checkpointed_cycle_count := s.cycle_count }

/-- `CorePerfModel::updateInternalVariablesOnFrequencyChange`: recompute
the average frequency, then install the new frequency. -/
def updateInternalVariablesOnFrequencyChange (s : PerfState) (f : ℚ) : PerfState :=
  { recomputeAverageFrequency s with frequency := f }

/-- `CorePerfModel::queueDynamicInstruction`.  When the model is disabled
or performance modeling is off, the instruction is deleted (flag `true`)
and nothing is queued; otherwise it is wrapped in a fresh dynamic
single-instruction basic block and enqueued (flag `false`). -/
def queueDynamicInstruction (s : PerfState) (i : Instruction) : PerfState × Bool :=
  if !s.enabled || !s.perf_modeling then
    (s, true)
  else
    ({ s with basic_block_queue := s.basic_block_queue ++ [⟨true, [i]⟩] }, false)

/-- `CorePerfModel::queueBasicBlock`: no-op when disabled or modeling is
off, otherwise enqueue. -/
def queueBasicBlock (s : PerfState) (b : BasicBlock) : PerfState :=
  if !s.enabled || !s.perf_modeling then s
  else { s with basic_block_queue := s.basic_block_queue ++ [b] }

/-- `CorePerfModel::pushDynamicInstructionInfo`: dropped when disabled or
modeling is off, otherwise pushed at the back (no cap check here). -/
def pushDynamicInstructionInfo (s : PerfState) (i : DynamicInstructionInfo) : PerfState :=
  if !s.enabled || !s.perf_modeling then s
  else { s with dynamic_info_queue := s.dynamic_info_queue ++ [i] }

/-- Outcome of `popDynamicInstructionInfo`: either the updated state or a
fatal `LOG_ASSERT_ERROR`. -/
inductive PopOut
  | fatal
  | ok (s : PerfState)
deriving DecidableEq, Repr

/-- `CorePerfModel::popDynamicInstructionInfo`: no-op when disabled or
modeling is off; otherwise fatal if the queue is empty or holds at least
5000 entries, else pop the front. -/
def popDynamicInstructionInfo (s : PerfState) : PopOut :=
  if !s.enabled || !s.perf_modeling then .ok s
  else if s.dynamic_info_queue.length > 0 then
    if s.dynamic_info_queue.length < 5000 then
      .ok { s with dynamic_info_queue := s.dynamic_info_queue.tail }
    else .fatal
  else .fatal

/-- Outcome of `getDynamicInstructionInfo`: the
`DynamicInstructionInfoNotAvailableException` when the queue is empty, a
fatal assertion when it holds at least 5000 entries, or the front fact
(non-destructively). -/
inductive GetDynOut
  | notAvailable
  | fatal
  | ok (f : DynamicInstructionInfo)
deriving DecidableEq, Repr

/-- `CorePerfModel::getDynamicInstructionInfo` (note: no enabled check). -/
def getDynamicInstructionInfo (s : PerfState) : GetDynOut :=
  match s.dynamic_info_queue with
  | [] => .notAvailable
  | f :: _ =>
      if s.dynamic_info_queue.length < 5000 then .ok f else .fatal

/-! ## MagicPep concrete performance model -/

/-- `MagicPepPerformanceModel::isModeled`: only `RECV`, `SYNC` and
`SPAWN` instructions are costed with their static cost. -/
def isModeled : InstructionType → Bool
  | .INST_RECV => true
  | .INST_SYNC => true
  | .INST_SPAWN => true
  | _ => false

/-- Whether a dynamic fact is the matching memory-info variant for a
memory operand: `MEMORY_READ` for `READ`, `MEMORY_WRITE` for `WRITE`. -/
def matchesOp (f : DynamicInstructionInfo) (o : Operand) : Bool :=
  match o.m_direction with
  | .READ => f.type == .MEMORY_READ
  | .WRITE => f.type == .MEMORY_WRITE

/-- Outcome of walking the operand list of one instruction: accumulated
cost and updated state, a cooperative stall
(`DynamicInstructionInfoNotAvailableException`, carrying the partial
state), or a fatal assertion. -/
inductive OpsOut
  | ok (cost : Nat) (s : PerfState)
  | notAvailable (s : PerfState)
  | fatal
deriving DecidableEq, Repr

/-- The operand loop of `MagicPepPerformanceModel::handleInstruction`:
for each `MEMORY` operand, peek the front dynamic fact, fatally assert
the matching variant, accumulate its latency and pop it. -/
def processOps (s : PerfState) : List Operand → OpsOut
  | [] => .ok 0 s
  | o :: rest =>
      if o.m_type == .MEMORY then
        match getDynamicInstructionInfo s with
        | .notAvailable => .notAvailable s
        | .fatal => .fatal
        | .ok info =>
            if matchesOp info o then
              match popDynamicInstructionInfo s with
              | .fatal => .fatal
              | .ok s' =>
                  match processOps s' rest with
                  | .ok c s'' => .ok (info.memory_info.latency + c) s''
                  | .notAvailable s'' => .notAvailable s''
                  | .fatal => .fatal
            else .fatal
      else processOps s rest

/-- Outcome of `handleInstruction`: normal completion, the
`AbortInstructionException` (never produced by MagicPep, but caught by
`iterate`), the cooperative stall, or a fatal assertion. -/
inductive HIOut
  | ok (s : PerfState)
  | abort (s : PerfState)
  | notAvailable (s : PerfState)
  | fatal
deriving DecidableEq, Repr

/-- `MagicPepPerformanceModel::handleInstruction`: walk the operands,
then add the static cost for modeled instruction types and exactly 1
cycle otherwise, and bump the counters. -/
def handleInstruction (s : PerfState) (i : Instruction) : HIOut :=
  match processOps s i.operands with
  | .fatal => .fatal
  | .notAvailable s' => .notAvailable s'
  | .ok c s' =>
      let cost := c + (if isModeled i.type then i.cost else 1)
      .ok { s' with
              instruction_count := s'.instruction_count + 1
              cycle_count := s'.cycle_count + cost }

/-- The memory operands of an operand list, in order. -/
def memOps (ops : List Operand) : List Operand :=
  ops.filter (fun o => o.m_type == .MEMORY)

/-! ## The cooperative iterate loop -/

/-- Outcome of processing the head basic block from the current cursor:
the block was fully drained, iteration stalled
(`DynamicInstructionInfoNotAvailableException` escaped to `iterate`'s
outer handler), or a fatal assertion fired. -/
inductive BlockOut
  | done (s : PerfState)
  | stalled (s : PerfState)
  | fatal
deriving DecidableEq, Repr

/-- The inner `for` loop of `CorePerfModel::iterate` with explicit fuel:
walk the head block `bb` from `current_ins_index` to its end, advancing
the cursor after each completed (or aborted) instruction.  The fuel is
exactly `bb.insns.length - current_ins_index`: the loop advances the
cursor by one per iteration, so fuel 0 coincides with the cursor having
reached the end of the block. -/
def processBlockFuel : Nat → BasicBlock → PerfState → BlockOut
  | 0, _, s => .done s
  | fuel + 1, bb, s =>
      if h : s.current_ins_index < bb.insns.length then
        match handleInstruction s (bb.insns[s.current_ins_index]) with
        | .fatal => .fatal
        | .notAvailable s' => .stalled s'
        | .ok s' =>
            processBlockFuel fuel bb { s' with current_ins_index := s.current_ins_index + 1 }
        | .abort s' =>
            processBlockFuel fuel bb { s' with current_ins_index := s.current_ins_index + 1 }
      else .done s

/-- The inner `for` loop of `CorePerfModel::iterate`. -/
def processBlock (bb : BasicBlock) (s : PerfState) : BlockOut :=
  processBlockFuel (bb.insns.length - s.current_ins_index) bb s

/-- Outcome of `iterate`: the updated state, or a fatal assertion raised
somewhere inside. -/
inductive IterOut
  | fatal
  | ok (s : PerfState)
deriving DecidableEq, Repr

/-- The `while (m_basic_block_queue.size() > 1)` loop of
`CorePerfModel::iterate`, with fuel bounding the number of outer
iterations.  Each completed block is popped (one outer iteration), so the
initial queue length is sufficient fuel: when fuel reaches 0 the queue
has at most one block left and the loop condition is false anyway. -/
def iterateFuel : Nat → PerfState → IterOut
  | 0, s => .ok s
  | fuel + 1, s =>
      if 1 < s.basic_block_queue.length then
        match s.basic_block_queue with
        | [] => .ok s
        | bb :: _ =>
            match processBlock bb s with
            | .fatal => .fatal
            | .stalled s' => .ok s'
            | .done s' =>
                iterateFuel fuel
                  { s' with
                      basic_block_queue := s'.basic_block_queue.tail
                      current_ins_index := 0 }
      else .ok s

/-- `CorePerfModel::iterate`. -/
def iterate (s : PerfState) : IterOut :=
  iterateFuel s.basic_block_queue.length s

/-! ## Transition system over the public interface -/

/-- The public operations of a `CorePerfModel`, for reachability
reasoning. -/
inductive PerfOp
  | opEnable
  | opDisable
  | opQueueDynamicInstruction (i : Instruction)
  | opQueueBasicBlock (b : BasicBlock)
  | opPushDynamicInfo (f : DynamicInstructionInfo)
  | opPopDynamicInfo
  | opIterate
  | opSetCycleCount (c : Nat)
  | opUpdateFrequency (f : ℚ)
  | opRecomputeAverageFrequency
deriving DecidableEq, Repr

/-- One operation applied to a model state; `none` models a fatal
`LOG_ASSERT_ERROR` terminating the process. -/
def stepOp (s : PerfState) : PerfOp → Option PerfState
  | .opEnable => some (enable s)
  | .opDisable => some (disable s)
  | .opQueueDynamicInstruction i => some (queueDynamicInstruction s i).1
  | .opQueueBasicBlock b => some (queueBasicBlock s b)
  | .opPushDynamicInfo f => some (pushDynamicInstructionInfo s f)
  | .opPopDynamicInfo =>
      match popDynamicInstructionInfo s with
      | .ok t => some t
      | .fatal => none
  | .opIterate =>
      match iterate s with
      | .ok t => some t
      | .fatal => none
  | .opSetCycleCount c => some (setCycleCount s c)
  | .opUpdateFrequency f => some (updateInternalVariablesOnFrequencyChange s f)
  | .opRecomputeAverageFrequency => some (recomputeAverageFrequency s)

/-- Run a sequence of operations; `none` as soon as one is fatal. -/
def runOps (s : PerfState) : List PerfOp → Option PerfState
  | [] => some s
  | op :: rest =>
      match stepOp s op with
      | some t => runOps t rest
      | none => none

/-! ## MCP broadcast model (`src/common/system/mcp.cc`) -/

/-- Network packet type tags appearing in `mcp.cc`. -/
inductive PacketType
  | MCP_REQUEST
  | MCP_SYSTEM
  | MCP_RESPONSE
  | SIM_THREAD_UPDATE_COMM_MAP
  | OTHER
deriving DecidableEq, Repr

/-- A network packet as manipulated by the MCP broadcast: sender id,
receiver id and type tag (the payload is irrelevant to the control
flow modelled here). -/
structure NetPacket where
  sender : Nat
  receiver : Nat
  ptype : PacketType
deriving DecidableEq, Repr

/-- The configuration slice the MCP broadcast reads from `g_config`. -/
structure McpConfig where
  mcpCoreNum : Nat
  processCount : Nat
  totalCores : Nat
  coreListForProcess : Nat → List Nat

/-- One observable network action of the MCP. -/
inductive NetEvent
  | send (pkt : NetPacket)
  | recv (types : List PacketType)
deriving DecidableEq, Repr

/-- `MCP::broadcastPacketToProcesses`: substitute the MCP core id as the
packet's sender, then for each `proc_id` in `0 ..< getProcessCount()` in
ascending order, send the packet to `getCoreListForProcess(proc_id)[0]`
and block in `netRecv` on a `MCP_RESPONSE_TYPE` match before the next
iteration.  The model records the resulting network trace. -/
def broadcastPacketToProcesses (cfg : McpConfig) (pkt : NetPacket) : List NetEvent :=
  (List.range cfg.processCount).flatMap fun proc_id =>
    [ .send { pkt with sender := cfg.mcpCoreNum,
                       receiver := (cfg.coreListForProcess proc_id).headD 0 },
      .recv [.MCP_RESPONSE] ]

/-! ## LCP packet dispatch (`src/common/system/lcp.cc`) -/

/-- Little-endian read of `n` bytes at byte offset `off` from a packet
buffer (x86 layout); bytes beyond the buffer read as 0. -/
def readBytesLE (pkt : List Nat) (off : Nat) : Nat → Nat
  | 0 => 0
  | n + 1 => pkt.getD off 0 % 256 + 256 * readBytesLE pkt (off + 1) n

/-- A 32-bit load (`SInt32` width). -/
def readU32 (pkt : List Nat) (off : Nat) : Nat := readBytesLE pkt off 4

/-- A 64-bit load (`UInt64` width). -/
def readU64 (pkt : List Nat) (off : Nat) : Nat := readBytesLE pkt off 8

/-- The `LCP_MESSAGE_*` tag values.  They are declared in
`message_types.h`, which is outside the sampled sources, so the dispatch
below is parametric in the concrete values. -/
structure LcpMessageTags where
  quit : Nat
  commid_update : Nat
  simulator_finished : Nat
  simulator_finished_ack : Nat
  thread_spawn_request_from_requester : Nat
  thread_spawn_request_from_master : Nat
  thread_spawn_reply_from_slave : Nat
  thread_exit : Nat
  thread_join_request : Nat
deriving DecidableEq, Repr

/-- The externally observable dispatch of one `LCP::processPacket` call. -/
inductive LcpAction
  | quit
  | commIdUpdate
  | simulatorFinished
  | simulatorFinishedAck
  | masterSpawnThread
  | slaveSpawnThread
  | masterSpawnThreadReply
  | threadExit (thread_id : Nat) (cycle_count : Nat)
  | masterJoinThread
  | fatalUnknown
deriving DecidableEq, Repr

/-- `LCP::processPacket`: the first 32-bit word of the packet is the
message tag and `data` points 4 bytes into the packet.  For
`LCP_MESSAGE_THREAD_EXIT` the code passes `*(SInt32*)data` — bytes 4..7
of the packet — as the thread id, and `*((UInt64*)data + 4)` as the
cycle count: the `+ 4` is pointer arithmetic on `UInt64*`, so this is
the 64-bit word at byte offset 4 + 4*8 = 36 of the packet. -/
def processPacket (t : LcpMessageTags) (pkt : List Nat) : LcpAction :=
  let msg_type := readU32 pkt 0
  if msg_type = t.quit then .quit
  else if msg_type = t.commid_update then .commIdUpdate
  else if msg_type = t.simulator_finished then .simulatorFinished
  else if msg_type = t.simulator_finished_ack then .simulatorFinishedAck
  else if msg_type = t.thread_spawn_request_from_requester then .masterSpawnThread
  else if msg_type = t.thread_spawn_request_from_master then .slaveSpawnThread
  else if msg_type = t.thread_spawn_reply_from_slave then .masterSpawnThreadReply
  else if msg_type = t.thread_exit then .threadExit (readU32 pkt 4) (readU64 pkt 36)
  else if msg_type = t.thread_join_request then .masterJoinThread
  else .fatalUnknown

/-- Modelled from the spec (for comparison with `processPacket`): the
THREAD_EXIT payload is `{thread_id, cycle_count}` laid out contiguously
after the tag, so the intended action takes the thread id from bytes
4..7 and the cycle count from the 64-bit word at byte offset 8,
immediately following the thread id. -/
def intendedThreadExitAction (pkt : List Nat) : LcpAction :=
  .threadExit (readU32 pkt 4) (readU64 pkt 8)

/-! ### Preservation lemmas

`handleInstruction` touches only the dynamic-info queue and the two
counters; in particular the basic-block queue and the cursor are
untouched, which is what makes the fuel `iterate` exactly the source's
`while` loop. -/

theorem popDynamicInstructionInfo_ok_frame {s s' : PerfState}
    (h : popDynamicInstructionInfo s = .ok s') :
    s'.basic_block_queue = s.basic_block_queue ∧
    s'.current_ins_index = s.current_ins_index ∧
    s'.cycle_count = s.cycle_count ∧
    s'.instruction_count = s.instruction_count ∧
    s'.enabled = s.enabled ∧ s'.perf_modeling = s.perf_modeling := by
  unfold popDynamicInstructionInfo at h
  split at h
  · cases h; exact ⟨rfl, rfl, rfl, rfl, rfl, rfl⟩
  · split at h
    · split at h
      · cases h; exact ⟨rfl, rfl, rfl, rfl, rfl, rfl⟩
      · cases h
    · cases h

theorem processOps_ok_frame {ops : List Operand} {s s' : PerfState} {c : Nat}
    (h : processOps s ops = .ok c s') :
    s'.basic_block_queue = s.basic_block_queue ∧
    s'.current_ins_index = s.current_ins_index ∧
    s'.cycle_count = s.cycle_count ∧
    s'.instruction_count = s.instruction_count ∧
    s'.enabled = s.enabled ∧ s'.perf_modeling = s.perf_modeling := by
  induction ops generalizing s c with
  | nil =>
      unfold processOps at h
      cases h; exact ⟨rfl, rfl, rfl, rfl, rfl, rfl⟩
  | cons o rest ih =>
      unfold processOps at h
      split at h
      · cases hg : getDynamicInstructionInfo s with
        | notAvailable => simp only [hg] at h; cases h
        | fatal => simp only [hg] at h; cases h
        | ok info =>
            simp only [hg] at h
            split at h
            · cases hp : popDynamicInstructionInfo s with
              | fatal => simp only [hp] at h; cases h
              | ok s₁ =>
                  simp only [hp] at h
                  cases hr : processOps s₁ rest with
                  | ok c₂ s₂ =>
                      simp only [hr] at h
                      cases h
                      have h1 := popDynamicInstructionInfo_ok_frame hp
                      have h2 := ih hr
                      exact ⟨h2.1.trans h1.1, h2.2.1.trans h1.2.1,
                        h2.2.2.1.trans h1.2.2.1, h2.2.2.2.1.trans h1.2.2.2.1,
                        h2.2.2.2.2.1.trans h1.2.2.2.2.1,
                        h2.2.2.2.2.2.trans h1.2.2.2.2.2⟩
                  | notAvailable s₂ => simp only [hr] at h; cases h
                  | fatal => simp only [hr] at h; cases h
            · cases h
      · exact ih h

theorem processOps_na_frame {ops : List Operand} {s s' : PerfState}
    (h : processOps s ops = .notAvailable s') :
    s'.basic_block_queue = s.basic_block_queue ∧
    s'.current_ins_index = s.current_ins_index ∧
    s'.cycle_count = s.cycle_count ∧
    s'.instruction_count = s.instruction_count ∧
    s'.enabled = s.enabled ∧ s'.perf_modeling = s.perf_modeling := by
  induction ops generalizing s with
  | nil => unfold processOps at h; cases h
  | cons o rest ih =>
      unfold processOps at h
      split at h
      · cases hg : getDynamicInstructionInfo s with
        | notAvailable =>
            simp only [hg] at h
            cases h; exact ⟨rfl, rfl, rfl, rfl, rfl, rfl⟩
        | fatal => simp only [hg] at h; cases h
        | ok info =>
            simp only [hg] at h
            split at h
            · cases hp : popDynamicInstructionInfo s with
              | fatal => simp only [hp] at h; cases h
              | ok s₁ =>
                  simp only [hp] at h
                  cases hr : processOps s₁ rest with
                  | ok c₂ s₂ => simp only [hr] at h; cases h
                  | notAvailable s₂ =>
                      simp only [hr] at h
                      cases h
                      have h1 := popDynamicInstructionInfo_ok_frame hp
                      have h2 := ih hr
                      exact ⟨h2.1.trans h1.1, h2.2.1.trans h1.2.1,
                        h2.2.2.1.trans h1.2.2.1, h2.2.2.2.1.trans h1.2.2.2.1,
                        h2.2.2.2.2.1.trans h1.2.2.2.2.1,
                        h2.2.2.2.2.2.trans h1.2.2.2.2.2⟩
                  | fatal => simp only [hr] at h; cases h
            · cases h
      · exact ih h

theorem handleInstruction_ok_frame {s s' : PerfState} {i : Instruction}
    (h : handleInstruction s i = .ok s') :
    s'.basic_block_queue = s.basic_block_queue ∧
    s'.current_ins_index = s.current_ins_index := by
  unfold handleInstruction at h
  cases hp : processOps s i.operands with
  | ok c s₁ =>
      rw [hp] at h
      cases h
      have := processOps_ok_frame hp
      exact ⟨this.1, this.2.1⟩
  | notAvailable s₁ => rw [hp] at h; cases h
  | fatal => rw [hp] at h; cases h

theorem handleInstruction_na_frame {s s' : PerfState} {i : Instruction}
    (h : handleInstruction s i = .notAvailable s') :
    s'.basic_block_queue = s.basic_block_queue ∧
    s'.current_ins_index = s.current_ins_index ∧
    s'.cycle_count = s.cycle_count := by
  unfold handleInstruction at h
  cases hp : processOps s i.operands with
  | ok c s₁ => rw [hp] at h; cases h
  | notAvailable s₁ =>
      rw [hp] at h
      cases h
      have := processOps_na_frame hp
      exact ⟨this.1, this.2.1, this.2.2.1⟩
  | fatal => rw [hp] at h; cases h

/-- MagicPep's `handleInstruction` never raises
`AbortInstructionException`. -/
theorem handleInstruction_ne_abort (s s' : PerfState) (i : Instruction) :
    handleInstruction s i ≠ .abort s' := by
  unfold handleInstruction
  cases hp : processOps s i.operands <;> simp

theorem processBlockFuel_done_frame (fuel : Nat) :
    ∀ {bb : BasicBlock} {s s' : PerfState},
      processBlockFuel fuel bb s = .done s' →
      s'.basic_block_queue = s.basic_block_queue := by
  induction fuel with
  | zero =>
      intro bb s s' h
      cases h; rfl
  | succ fuel ih =>
      intro bb s s' h
      unfold processBlockFuel at h
      by_cases h1 : s.current_ins_index < bb.insns.length
      · rw [dif_pos h1] at h
        cases hhi : handleInstruction s (bb.insns[s.current_ins_index]) with
        | fatal => simp only [hhi] at h; cases h
        | notAvailable s₁ => simp only [hhi] at h; cases h
        | ok s₁ =>
            simp only [hhi] at h
            rw [ih h]
            exact (handleInstruction_ok_frame hhi).1
        | abort s₁ => exact absurd hhi (handleInstruction_ne_abort _ _ _)
      · rw [dif_neg h1] at h
        cases h; rfl

theorem processBlock_done_frame {bb : BasicBlock} {s s' : PerfState}
    (h : processBlock bb s = .done s') :
    s'.basic_block_queue = s.basic_block_queue :=
  processBlockFuel_done_frame _ h

theorem processBlockFuel_stalled_frame (fuel : Nat) :
    ∀ {bb : BasicBlock} {s s' : PerfState},
      processBlockFuel fuel bb s = .stalled s' →
      s'.basic_block_queue = s.basic_block_queue := by
  induction fuel with
  | zero =>
      intro bb s s' h
      cases h
  | succ fuel ih =>
      intro bb s s' h
      unfold processBlockFuel at h
      by_cases h1 : s.current_ins_index < bb.insns.length
      · rw [dif_pos h1] at h
        cases hhi : handleInstruction s (bb.insns[s.current_ins_index]) with
        | fatal => simp only [hhi] at h; cases h
        | notAvailable s₁ =>
            simp only [hhi] at h
            cases h
            exact (handleInstruction_na_frame hhi).1
        | ok s₁ =>
            simp only [hhi] at h
            rw [ih h]
            exact (handleInstruction_ok_frame hhi).1
        | abort s₁ => exact absurd hhi (handleInstruction_ne_abort _ _ _)
      · rw [dif_neg h1] at h
        cases h

theorem processBlock_stalled_frame {bb : BasicBlock} {s s' : PerfState}
    (h : processBlock bb s = .stalled s') :
    s'.basic_block_queue = s.basic_block_queue :=
  processBlockFuel_stalled_frame _ h

/-! ### Characterization of the operand walk -/

theorem memOps_cons_mem {o : Operand} {ops : List Operand}
    (hm : (o.m_type == OperandType.MEMORY) = true) :
    memOps (o :: ops) = o :: memOps ops := by
  simp [memOps, hm]

theorem memOps_cons_not_mem {o : Operand} {ops : List Operand}
    (hm : ¬ (o.m_type == OperandType.MEMORY) = true) :
    memOps (o :: ops) = memOps ops := by
  simp only [memOps, List.filter]
  rw [show (o.m_type == OperandType.MEMORY) = false by simpa using hm]

/-- When the front of the dynamic-info queue holds one matching fact per
memory operand, the operand walk completes: it pops exactly those facts,
accumulates exactly their latencies, and touches nothing else. -/
theorem processOps_complete :
    ∀ {ops : List Operand} {infos rest : List DynamicInstructionInfo} {s : PerfState},
      s.enabled = true → s.perf_modeling = true →
      s.dynamic_info_queue = infos ++ rest →
      List.Forall₂ (fun f o => matchesOp f o = true) infos (memOps ops) →
      s.dynamic_info_queue.length < 5000 →
      processOps s ops =
        .ok ((infos.map fun f => f.memory_info.latency).sum)
          { s with dynamic_info_queue := rest } := by
  intro ops
  induction ops with
  | nil =>
      intro infos rest s hen hpm hq hmatch hlen
      cases hmatch with
      | nil =>
          simp only [List.nil_append] at hq
          unfold processOps
          rw [← hq]
          rfl
  | cons o rest_ops ih =>
      intro infos rest s hen hpm hq hmatch hlen
      unfold processOps
      by_cases hm : (o.m_type == OperandType.MEMORY) = true
      · rw [if_pos hm]
        rw [memOps_cons_mem hm] at hmatch
        cases hmatch with
        | cons hfo hrest =>
            rename_i f infos'
            have hqcons : s.dynamic_info_queue = f :: (infos' ++ rest) := by
              simpa using hq
            have hlen' : (f :: (infos' ++ rest)).length < 5000 := hqcons ▸ hlen
            have hget : getDynamicInstructionInfo s = .ok f := by
              simp only [getDynamicInstructionInfo, hqcons]
              rw [if_pos hlen']
            have hpop : popDynamicInstructionInfo s =
                .ok { s with dynamic_info_queue := infos' ++ rest } := by
              unfold popDynamicInstructionInfo
              rw [if_neg (by simp [hen, hpm]), if_pos (by rw [hqcons]; simp),
                if_pos hlen, hqcons]
              rfl
            have hrec := ih (s := { s with dynamic_info_queue := infos' ++ rest })
              hen hpm rfl hrest
              (show (infos' ++ rest).length < 5000 by
                simp only [List.length_cons] at hlen'; omega)
            simp only [hget]
            rw [if_pos hfo]
            simp only [hpop, hrec]
            simp
      · rw [if_neg hm]
        rw [memOps_cons_not_mem hm] at hmatch
        exact ih hen hpm hq hmatch hlen

/-- When the facts run out before the memory operands do, the operand
walk pops the available matching facts and then raises the cooperative
stall, leaving counters untouched. -/
theorem processOps_underflow :
    ∀ {ops : List Operand} {infos : List DynamicInstructionInfo} {s : PerfState},
      s.enabled = true → s.perf_modeling = true →
      s.dynamic_info_queue = infos →
      List.Forall₂ (fun f o => matchesOp f o = true) infos
        ((memOps ops).take infos.length) →
      infos.length < (memOps ops).length →
      s.dynamic_info_queue.length < 5000 →
      processOps s ops = .notAvailable { s with dynamic_info_queue := [] } := by
  intro ops
  induction ops with
  | nil =>
      intro infos s hen hpm hq hmatch hshort hlen
      simp [memOps] at hshort
  | cons o rest_ops ih =>
      intro infos s hen hpm hq hmatch hshort hlen
      unfold processOps
      by_cases hm : (o.m_type == OperandType.MEMORY) = true
      · rw [if_pos hm]
        rw [memOps_cons_mem hm] at hmatch hshort
        cases infos with
        | nil =>
            have hget : getDynamicInstructionInfo s = .notAvailable := by
              unfold getDynamicInstructionInfo
              rw [hq]
            simp only [hget]
            have hs : { s with dynamic_info_queue := ([] : List DynamicInstructionInfo) } = s := by
              rw [← hq]
            rw [hs]
        | cons f infos' =>
            simp only [List.length_cons, List.take_succ_cons] at hmatch
            cases hmatch with
            | cons hfo hrest =>
                have hqcons : s.dynamic_info_queue = f :: infos' := hq
                have hlen' : (f :: infos').length < 5000 := hqcons ▸ hlen
                have hget : getDynamicInstructionInfo s = .ok f := by
                  simp only [getDynamicInstructionInfo, hqcons]
                  rw [if_pos hlen']
                have hpop : popDynamicInstructionInfo s =
                    .ok { s with dynamic_info_queue := infos' } := by
                  unfold popDynamicInstructionInfo
                  rw [if_neg (by simp [hen, hpm]), if_pos (by rw [hqcons]; simp),
                    if_pos hlen, hqcons]
                  rfl
                have hrec := ih (s := { s with dynamic_info_queue := infos' })
                  hen hpm rfl hrest
                  (show infos'.length < (memOps rest_ops).length by
                    simp only [List.length_cons] at hshort; omega)
                  (show infos'.length < 5000 by
                    simp only [List.length_cons] at hlen'; omega)
                simp only [hget]
                rw [if_pos hfo]
                simp only [hpop, hrec]
      · rw [if_neg hm]
        rw [memOps_cons_not_mem hm] at hmatch hshort
        exact ih hen hpm hq hmatch hshort hlen

/-- When the next available fact does not match the next memory operand,
the operand walk dies on the fatal `LOG_ASSERT_ERROR`. -/
theorem processOps_mismatch_fatal :
    ∀ {ops : List Operand} {infos rest' : List DynamicInstructionInfo}
      {f : DynamicInstructionInfo} {mos mos' : List Operand} {o : Operand} {s : PerfState},
      s.enabled = true → s.perf_modeling = true →
      s.dynamic_info_queue = infos ++ f :: rest' →
      memOps ops = mos ++ o :: mos' →
      List.Forall₂ (fun g m => matchesOp g m = true) infos mos →
      matchesOp f o = false →
      s.dynamic_info_queue.length < 5000 →
      processOps s ops = .fatal := by
  intro ops
  induction ops with
  | nil =>
      intro infos rest' f mos mos' o s hen hpm hq hsplit hmatch hmis hlen
      simp [memOps] at hsplit
  | cons o₀ rest_ops ih =>
      intro infos rest' f mos mos' o s hen hpm hq hsplit hmatch hmis hlen
      unfold processOps
      by_cases hm : (o₀.m_type == OperandType.MEMORY) = true
      · rw [if_pos hm]
        rw [memOps_cons_mem hm] at hsplit
        cases mos with
        | nil =>
            simp only [List.nil_append, List.cons.injEq] at hsplit
            cases hmatch
            have hqcons : s.dynamic_info_queue = f :: rest' := by simpa using hq
            have hlen' : (f :: rest').length < 5000 := hqcons ▸ hlen
            have hget : getDynamicInstructionInfo s = .ok f := by
              simp only [getDynamicInstructionInfo, hqcons]
              rw [if_pos hlen']
            simp only [hget]
            rw [if_neg (by rw [hsplit.1]; simp [hmis])]
        | cons m mos₂ =>
            simp only [List.cons_append, List.cons.injEq] at hsplit
            cases hmatch with
            | cons hgm hrest =>
                rename_i g infos₂
                have hqcons : s.dynamic_info_queue = g :: (infos₂ ++ f :: rest') := by
                  simpa using hq
                have hlen' : (g :: (infos₂ ++ f :: rest')).length < 5000 := hqcons ▸ hlen
                have hget : getDynamicInstructionInfo s = .ok g := by
                  simp only [getDynamicInstructionInfo, hqcons]
                  rw [if_pos hlen']
                have hpop : popDynamicInstructionInfo s =
                    .ok { s with dynamic_info_queue := infos₂ ++ f :: rest' } := by
                  unfold popDynamicInstructionInfo
                  rw [if_neg (by simp [hen, hpm]), if_pos (by rw [hqcons]; simp),
                    if_pos hlen, hqcons]
                  rfl
                have hrec := ih (s := { s with dynamic_info_queue := infos₂ ++ f :: rest' })
                  hen hpm rfl hsplit.2 hrest hmis
                  (show (infos₂ ++ f :: rest').length < 5000 by
                    simp only [List.length_cons] at hlen'; omega)
                simp only [hget]
                rw [if_pos (by rw [hsplit.1]; exact hgm)]
                simp only [hpop, hrec]
      · rw [if_neg hm]
        rw [memOps_cons_not_mem hm] at hsplit
        exact ih hen hpm hq hsplit hmatch hmis hlen


/-! ### Characterization of handleInstruction -/

theorem handleInstruction_complete {i : Instruction}
    {infos rest : List DynamicInstructionInfo} {s : PerfState}
    (hen : s.enabled = true) (hpm : s.perf_modeling = true)
    (hq : s.dynamic_info_queue = infos ++ rest)
    (hmatch : List.Forall₂ (fun f o => matchesOp f o = true) infos (memOps i.operands))
    (hlen : s.dynamic_info_queue.length < 5000) :
    handleInstruction s i =
      .ok { s with
              dynamic_info_queue := rest
              instruction_count := s.instruction_count + 1
              cycle_count := s.cycle_count +
                ((infos.map fun f => f.memory_info.latency).sum +
                  (if isModeled i.type then i.cost else 1)) } := by
  unfold handleInstruction
  simp only [processOps_complete hen hpm hq hmatch hlen]

theorem handleInstruction_underflow {i : Instruction}
    {infos : List DynamicInstructionInfo} {s : PerfState}
    (hen : s.enabled = true) (hpm : s.perf_modeling = true)
    (hq : s.dynamic_info_queue = infos)
    (hmatch : List.Forall₂ (fun f o => matchesOp f o = true) infos
      ((memOps i.operands).take infos.length))
    (hshort : infos.length < (memOps i.operands).length)
    (hlen : s.dynamic_info_queue.length < 5000) :
    handleInstruction s i = .notAvailable { s with dynamic_info_queue := [] } := by
  unfold handleInstruction
  simp only [processOps_underflow hen hpm hq hmatch hshort hlen]

theorem handleInstruction_mismatch {i : Instruction}
    {infos rest' : List DynamicInstructionInfo} {f : DynamicInstructionInfo}
    {mos mos' : List Operand} {o : Operand} {s : PerfState}
    (hen : s.enabled = true) (hpm : s.perf_modeling = true)
    (hq : s.dynamic_info_queue = infos ++ f :: rest')
    (hsplit : memOps i.operands = mos ++ o :: mos')
    (hmatch : List.Forall₂ (fun g m => matchesOp g m = true) infos mos)
    (hmis : matchesOp f o = false)
    (hlen : s.dynamic_info_queue.length < 5000) :
    handleInstruction s i = .fatal := by
  unfold handleInstruction
  simp only [processOps_mismatch_fatal hen hpm hq hsplit hmatch hmis hlen]

/-! ### Shape of the iterate loop -/

theorem iterateFuel_stop {fuel : Nat} {s : PerfState}
    (h : ¬ 1 < s.basic_block_queue.length) : iterateFuel fuel s = .ok s := by
  cases fuel with
  | zero => rfl
  | succ fuel =>
      unfold iterateFuel
      rw [if_neg h]

theorem iterate_stop {s : PerfState} (h : ¬ 1 < s.basic_block_queue.length) :
    iterate s = .ok s :=
  iterateFuel_stop h

theorem iterateFuel_ok_queue_nonempty (fuel : Nat) :
    ∀ {s t : PerfState}, iterateFuel fuel s = .ok t →
      s.basic_block_queue ≠ [] → t.basic_block_queue ≠ [] := by
  induction fuel with
  | zero =>
      intro s t h hne
      cases h; exact hne
  | succ fuel ih =>
      intro s t h hne
      unfold iterateFuel at h
      by_cases hc : 1 < s.basic_block_queue.length
      · rw [if_pos hc] at h
        cases hq : s.basic_block_queue with
        | nil => rw [hq] at hc; simp at hc
        | cons bb rest =>
            simp only [hq] at h
            cases hp : processBlock bb s with
            | fatal => simp only [hp] at h; cases h
            | stalled s₁ =>
                simp only [hp] at h
                cases h
                rw [processBlock_stalled_frame hp]
                exact hne
            | done s₁ =>
                simp only [hp] at h
                apply ih h
                show s₁.basic_block_queue.tail ≠ []
                rw [processBlock_done_frame hp, hq]
                rw [hq] at hc
                simp only [List.length_cons] at hc
                show rest ≠ []
                exact List.ne_nil_of_length_pos (by omega)
      · rw [if_neg hc] at h
        cases h; exact hne

/-- **C5**: `iterate()` processes instructions only while the basic-block
queue holds strictly more than one block: on an empty queue it is a
no-op, on a queue of size exactly one it does no work and leaves the
state unchanged, and a non-empty queue is never drained to empty. -/
theorem iterate_sentinel (s : PerfState) :
    (s.basic_block_queue = [] → iterate s = .ok s) ∧
    (s.basic_block_queue.length = 1 → iterate s = .ok s) ∧
    (∀ t, iterate s = .ok t → s.basic_block_queue ≠ [] → t.basic_block_queue ≠ []) := by
  refine ⟨?_, ?_, ?_⟩
  · intro h
    exact iterate_stop (by rw [h]; simp)
  · intro h
    exact iterate_stop (by omega)
  · intro t h hne
    exact iterateFuel_ok_queue_nonempty _ h hne

/-- Witness for C5 at concrete states: the empty queue, a singleton
queue, and a two-block queue whose head drains to the sentinel. -/
theorem iterate_sentinel_witness :
    iterate (initPerfState 1 true false) = .ok (initPerfState 1 true false) ∧
    iterate { initPerfState 1 true false with
        basic_block_queue := [⟨false, []⟩] } =
      .ok { initPerfState 1 true false with basic_block_queue := [⟨false, []⟩] } ∧
    ({ initPerfState 1 true false with
        enabled := true
        basic_block_queue := [⟨true, []⟩] } : PerfState).basic_block_queue ≠ [] := by
  refine ⟨(iterate_sentinel _).1 rfl, (iterate_sentinel _).2.1 (by decide), ?_⟩
  exact (iterate_sentinel { initPerfState 1 true false with
      enabled := true
      basic_block_queue := [⟨false, []⟩, ⟨true, []⟩] }).2.2
    { initPerfState 1 true false with
        enabled := true
        basic_block_queue := [⟨true, []⟩] }
    (by decide) (by decide)

/-- **C2**: for every instruction handled by `MagicPepPerformanceModel`,
`cycle_count` grows by exactly the sum of the latencies of one popped
matching memory-info fact per memory operand (reads match `MEMORY_READ`,
writes match `MEMORY_WRITE`), plus the instruction's static cost when
its type is `RECV`, `SYNC` or `SPAWN` and exactly 1 cycle otherwise;
exactly one fact is popped per memory operand (the popped prefix is in
1-1 correspondence with the memory operands), and a mismatched variant
is a fatal assertion. -/
theorem magicPep_handleInstruction_cost :
    (∀ (s : PerfState) (i : Instruction) (infos rest : List DynamicInstructionInfo),
      s.enabled = true → s.perf_modeling = true →
      s.dynamic_info_queue = infos ++ rest →
      List.Forall₂ (fun f o => matchesOp f o = true) infos (memOps i.operands) →
      s.dynamic_info_queue.length < 5000 →
      handleInstruction s i =
        .ok { s with
                dynamic_info_queue := rest
                instruction_count := s.instruction_count + 1
                cycle_count := s.cycle_count +
                  ((infos.map fun f => f.memory_info.latency).sum +
                    (if isModeled i.type then i.cost else 1)) } ∧
      infos.length = (memOps i.operands).length) ∧
    (∀ (s : PerfState) (i : Instruction) (infos rest' : List DynamicInstructionInfo)
        (f : DynamicInstructionInfo) (mos mos' : List Operand) (o : Operand),
      s.enabled = true → s.perf_modeling = true →
      s.dynamic_info_queue = infos ++ f :: rest' →
      memOps i.operands = mos ++ o :: mos' →
      List.Forall₂ (fun g m => matchesOp g m = true) infos mos →
      matchesOp f o = false →
      s.dynamic_info_queue.length < 5000 →
      handleInstruction s i = .fatal) := by
  constructor
  · intro s i infos rest hen hpm hq hmatch hlen
    exact ⟨handleInstruction_complete hen hpm hq hmatch hlen, hmatch.length_eq⟩
  · intro s i infos rest' f mos mos' o hen hpm hq hsplit hmatch hmis hlen
    exact handleInstruction_mismatch hen hpm hq hsplit hmatch hmis hlen

/-- Witness for C2: a RECV instruction with a read and a write memory
operand (latencies 10 and 20, static cost 7) costs 10+20+7 = 37 cycles;
a read operand meeting a MEMORY_WRITE fact is fatal. -/
theorem magicPep_handleInstruction_cost_witness :
    handleInstruction
      { initPerfState 1 true false with
          enabled := true
          dynamic_info_queue := [⟨.MEMORY_READ, ⟨0, 10⟩⟩, ⟨.MEMORY_WRITE, ⟨4, 20⟩⟩] }
      ⟨.INST_RECV, [⟨.MEMORY, .READ⟩, ⟨.REG, .WRITE⟩, ⟨.MEMORY, .WRITE⟩], 7⟩ =
      .ok { initPerfState 1 true false with
          enabled := true
          dynamic_info_queue := []
          instruction_count := 1
          cycle_count := 37 } ∧
    handleInstruction
      { initPerfState 1 true false with
          enabled := true
          dynamic_info_queue := [⟨.MEMORY_WRITE, ⟨0, 10⟩⟩] }
      ⟨.INST_GENERIC, [⟨.MEMORY, .READ⟩], 3⟩ = .fatal := by
  constructor
  · have h := (magicPep_handleInstruction_cost.1
      { initPerfState 1 true false with
          enabled := true
          dynamic_info_queue := [⟨.MEMORY_READ, ⟨0, 10⟩⟩, ⟨.MEMORY_WRITE, ⟨4, 20⟩⟩] }
      ⟨.INST_RECV, [⟨.MEMORY, .READ⟩, ⟨.REG, .WRITE⟩, ⟨.MEMORY, .WRITE⟩], 7⟩
      [⟨.MEMORY_READ, ⟨0, 10⟩⟩, ⟨.MEMORY_WRITE, ⟨4, 20⟩⟩] []
      rfl rfl rfl
      (.cons (by decide) (.cons (by decide) .nil)) (by decide)).1
    exact h.trans (by decide)
  · exact magicPep_handleInstruction_cost.2
      { initPerfState 1 true false with
          enabled := true
          dynamic_info_queue := [⟨.MEMORY_WRITE, ⟨0, 10⟩⟩] }
      ⟨.INST_GENERIC, [⟨.MEMORY, .READ⟩], 3⟩
      [] [] ⟨.MEMORY_WRITE, ⟨0, 10⟩⟩ [] [] ⟨.MEMORY, .READ⟩
      rfl rfl rfl rfl .nil (by decide) (by decide)

/-- **C1**: when the head block's instruction at `current_ins_index`
raises `DynamicInstructionInfoNotAvailableException` because the
dynamic-info queue is empty, `iterate()` returns with the whole state —
in particular `current_ins_index` and the basic-block queue — unchanged;
after one matching fact is pushed, the next `iterate()` resumes at that
same instruction, completes it (adding the fact's latency plus the
instruction's cost contribution) and advances the cursor, continuing the
block walk from `current_ins_index + 1`. -/
theorem iterate_stall_and_resume
    (s : PerfState) (bb : BasicBlock) (rest : List BasicBlock) (o : Operand)
    (f : DynamicInstructionInfo)
    (hqueue : s.basic_block_queue = bb :: rest) (hrest : rest ≠ [])
    (hcur : s.current_ins_index < bb.insns.length)
    (hen : s.enabled = true) (hpm : s.perf_modeling = true)
    (hempty : s.dynamic_info_queue = [])
    (hmem : memOps (bb.insns[s.current_ins_index]).operands = [o])
    (hfo : matchesOp f o = true) :
    handleInstruction s (bb.insns[s.current_ins_index]) = .notAvailable s ∧
    iterate s = .ok s ∧
    handleInstruction (pushDynamicInstructionInfo s f) (bb.insns[s.current_ins_index]) =
      .ok { s with
              dynamic_info_queue := []
              instruction_count := s.instruction_count + 1
              cycle_count := s.cycle_count + (f.memory_info.latency +
                (if isModeled (bb.insns[s.current_ins_index]).type then
                  (bb.insns[s.current_ins_index]).cost else 1)) } ∧
    processBlock bb (pushDynamicInstructionInfo s f) =
      processBlock bb
        { s with
            dynamic_info_queue := []
            instruction_count := s.instruction_count + 1
            cycle_count := s.cycle_count + (f.memory_info.latency +
              (if isModeled (bb.insns[s.current_ins_index]).type then
                (bb.insns[s.current_ins_index]).cost else 1))
            current_ins_index := s.current_ins_index + 1 } := by
  have hstall : handleInstruction s (bb.insns[s.current_ins_index]) = .notAvailable s := by
    have h := @handleInstruction_underflow (bb.insns[s.current_ins_index]) [] s
      hen hpm hempty List.Forall₂.nil
      (by simp [hmem]) (by simp [hempty])
    rw [h]
    rw [← hempty]
  have hpush : pushDynamicInstructionInfo s f = { s with dynamic_info_queue := [f] } := by
    unfold pushDynamicInstructionInfo
    rw [if_neg (by simp [hen, hpm]), hempty]
    rfl
  have hresume : handleInstruction { s with dynamic_info_queue := [f] }
      (bb.insns[s.current_ins_index]) =
      .ok { s with
              dynamic_info_queue := []
              instruction_count := s.instruction_count + 1
              cycle_count := s.cycle_count + (f.memory_info.latency +
                (if isModeled (bb.insns[s.current_ins_index]).type then
                  (bb.insns[s.current_ins_index]).cost else 1)) } := by
    have h := @handleInstruction_complete (bb.insns[s.current_ins_index])
      [f] [] { s with dynamic_info_queue := [f] }
      hen hpm rfl (by rw [hmem]; exact .cons hfo .nil) (by simp)
    rw [h]
    simp
  refine ⟨hstall, ?_, by rw [hpush]; exact hresume, ?_⟩
  · unfold iterate
    rw [hqueue]
    show iterateFuel (rest.length + 1) s = .ok s
    unfold iterateFuel
    rw [if_pos (by
      rw [hqueue]
      simp only [List.length_cons]
      have := List.length_pos.mpr hrest
      omega)]
    have hpb : processBlock bb s = .stalled s := by
      unfold processBlock
      obtain ⟨k, hk⟩ : ∃ k, bb.insns.length - s.current_ins_index = k + 1 :=
        ⟨bb.insns.length - s.current_ins_index - 1, by omega⟩
      rw [hk]
      unfold processBlockFuel
      rw [dif_pos hcur]
      simp only [hstall]
    simp only [hqueue, hpb]
  · rw [hpush]
    unfold processBlock
    show processBlockFuel (bb.insns.length - s.current_ins_index) bb
        { s with dynamic_info_queue := [f] } =
      processBlockFuel (bb.insns.length - (s.current_ins_index + 1)) bb
        { s with
            dynamic_info_queue := []
            instruction_count := s.instruction_count + 1
            cycle_count := s.cycle_count + (f.memory_info.latency +
              (if isModeled (bb.insns[s.current_ins_index]).type then
                (bb.insns[s.current_ins_index]).cost else 1))
            current_ins_index := s.current_ins_index + 1 }
    obtain ⟨k, hk⟩ : ∃ k, bb.insns.length - s.current_ins_index = k + 1 :=
      ⟨bb.insns.length - s.current_ins_index - 1, by omega⟩
    have hk2 : bb.insns.length - (s.current_ins_index + 1) = k := by omega
    rw [hk, hk2]
    conv_lhs => unfold processBlockFuel
    rw [dif_pos hcur]
    simp only [hresume]

/-- Witness for C1: a single-read-operand instruction stalls on an empty
queue; pushing one MEMORY_READ fact of latency 5 lets the next iterate
complete it for 5 + 1 cycles and advance. -/
theorem iterate_stall_and_resume_witness :
    iterate { initPerfState 1 true false with
        enabled := true
        basic_block_queue :=
          [⟨false, [⟨.INST_GENERIC, [⟨.MEMORY, .READ⟩], 0⟩]⟩, ⟨false, []⟩] } =
      .ok { initPerfState 1 true false with
        enabled := true
        basic_block_queue :=
          [⟨false, [⟨.INST_GENERIC, [⟨.MEMORY, .READ⟩], 0⟩]⟩, ⟨false, []⟩] } ∧
    handleInstruction
      (pushDynamicInstructionInfo
        { initPerfState 1 true false with
            enabled := true
            basic_block_queue :=
              [⟨false, [⟨.INST_GENERIC, [⟨.MEMORY, .READ⟩], 0⟩]⟩, ⟨false, []⟩] }
        ⟨.MEMORY_READ, ⟨0, 5⟩⟩)
      ⟨.INST_GENERIC, [⟨.MEMORY, .READ⟩], 0⟩ =
      .ok { initPerfState 1 true false with
        enabled := true
        basic_block_queue :=
          [⟨false, [⟨.INST_GENERIC, [⟨.MEMORY, .READ⟩], 0⟩]⟩, ⟨false, []⟩]
        instruction_count := 1
        cycle_count := 6 } := by
  have h := iterate_stall_and_resume
    { initPerfState 1 true false with
        enabled := true
        basic_block_queue :=
          [⟨false, [⟨.INST_GENERIC, [⟨.MEMORY, .READ⟩], 0⟩]⟩, ⟨false, []⟩] }
    ⟨false, [⟨.INST_GENERIC, [⟨.MEMORY, .READ⟩], 0⟩]⟩ [⟨false, []⟩]
    ⟨.MEMORY, .READ⟩ ⟨.MEMORY_READ, ⟨0, 5⟩⟩
    rfl (by decide) (by decide) rfl rfl rfl (by decide) (by decide)
  exact ⟨h.2.1, (h.2.2.1).trans (by decide)⟩

/-- **C3**: on a frequency change, with Δ = `cycle_count` −
`checkpointed_cycle_count` and `prev_total_time` the value before the
call, `recomputeAverageFrequency()` sets `total_time` to
`prev_total_time + Δ / frequency` (the old frequency), sets
`average_frequency` to `(average_frequency × prev_total_time + Δ) /
total_time` (the new total time), checkpoints the cycle count, and only
then is `frequency` replaced; 100 cycles at frequency 1 followed by 100
cycles at frequency 2 yield `total_time = 150` and
`average_frequency = 200/150`. -/
theorem frequency_change_accounting (s : PerfState) (fnew : ℚ) :
    (updateInternalVariablesOnFrequencyChange s fnew).total_time =
      s.total_time +
        ((s.cycle_count - s.checkpointed_cycle_count : Nat) : ℚ) / s.frequency ∧
    (updateInternalVariablesOnFrequencyChange s fnew).average_frequency =
      (s.average_frequency * s.total_time +
          ((s.cycle_count - s.checkpointed_cycle_count : Nat) : ℚ)) /
        (updateInternalVariablesOnFrequencyChange s fnew).total_time ∧
    (updateInternalVariablesOnFrequencyChange s fnew).checkpointed_cycle_count =
      s.cycle_count ∧
    (updateInternalVariablesOnFrequencyChange s fnew).frequency = fnew ∧
    (updateInternalVariablesOnFrequencyChange s fnew).cycle_count = s.cycle_count ∧
    (recomputeAverageFrequency
        { updateInternalVariablesOnFrequencyChange
            { initPerfState 1 true false with cycle_count := 100 } 2 with
            cycle_count := 200 }).total_time = 150 ∧
    (recomputeAverageFrequency
        { updateInternalVariablesOnFrequencyChange
            { initPerfState 1 true false with cycle_count := 100 } 2 with
            cycle_count := 200 }).average_frequency = 200 / 150 :=
  ⟨rfl, rfl, rfl, rfl, rfl,
    by norm_num [recomputeAverageFrequency, updateInternalVariablesOnFrequencyChange,
      initPerfState],
    by norm_num [recomputeAverageFrequency, updateInternalVariablesOnFrequencyChange,
      initPerfState]⟩

/-- **C9**: with the model disabled, `queueDynamicInstruction` deletes
the passed instruction (flag `true`) and leaves the whole state — queue
and `cycle_count` included — unchanged, `queueBasicBlock` is a no-op,
and `pushDynamicInstructionInfo` drops the fact. -/
theorem disabled_ops_drop (s : PerfState) (i : Instruction) (b : BasicBlock)
    (f : DynamicInstructionInfo) (hdis : s.enabled = false) :
    queueDynamicInstruction s i = (s, true) ∧
    queueBasicBlock s b = s ∧
    pushDynamicInstructionInfo s f = s := by
  unfold queueDynamicInstruction queueBasicBlock pushDynamicInstructionInfo
  rw [hdis]
  simp

/-- Witness for C9 at the freshly constructed (disabled) model. -/
theorem disabled_ops_drop_witness :
    queueDynamicInstruction (initPerfState 1 true false)
        ⟨.INST_GENERIC, [], 2⟩ = (initPerfState 1 true false, true) ∧
    queueBasicBlock (initPerfState 1 true false) ⟨true, []⟩ =
      initPerfState 1 true false ∧
    pushDynamicInstructionInfo (initPerfState 1 true false)
        ⟨.MEMORY_READ, ⟨0, 3⟩⟩ = initPerfState 1 true false :=
  disabled_ops_drop (initPerfState 1 true false) ⟨.INST_GENERIC, [], 2⟩
    ⟨true, []⟩ ⟨.MEMORY_READ, ⟨0, 3⟩⟩ rfl

/-- **C10**: when `Config::getEnablePerformanceModeling()` is false,
all queue operations are no-ops even with the model enabled:
`queueDynamicInstruction` still deletes its argument,
`queueBasicBlock` and `pushDynamicInstructionInfo` change nothing, and
`popDynamicInstructionInfo` returns without touching the queue — in
particular it skips its empty-queue and soft-cap fatal assertions. -/
theorem perf_modeling_off_noop (s : PerfState) (i : Instruction) (b : BasicBlock)
    (f : DynamicInstructionInfo) (hpm : s.perf_modeling = false) :
    queueDynamicInstruction s i = (s, true) ∧
    queueBasicBlock s b = s ∧
    pushDynamicInstructionInfo s f = s ∧
    popDynamicInstructionInfo s = .ok s := by
  unfold queueDynamicInstruction queueBasicBlock pushDynamicInstructionInfo
    popDynamicInstructionInfo
  rw [hpm]
  simp

/-- Witness for C10 at an enabled model with modeling off and an empty
dynamic-info queue: the pop succeeds where the empty-queue assertion
would otherwise fire. -/
theorem perf_modeling_off_noop_witness :
    queueDynamicInstruction { initPerfState 1 false false with enabled := true }
        ⟨.INST_SYNC, [], 4⟩ =
      ({ initPerfState 1 false false with enabled := true }, true) ∧
    queueBasicBlock { initPerfState 1 false false with enabled := true }
        ⟨false, []⟩ = { initPerfState 1 false false with enabled := true } ∧
    pushDynamicInstructionInfo { initPerfState 1 false false with enabled := true }
        ⟨.MEMORY_WRITE, ⟨8, 2⟩⟩ =
      { initPerfState 1 false false with enabled := true } ∧
    popDynamicInstructionInfo { initPerfState 1 false false with enabled := true } =
      .ok { initPerfState 1 false false with enabled := true } :=
  perf_modeling_off_noop { initPerfState 1 false false with enabled := true }
    ⟨.INST_SYNC, [], 4⟩ ⟨false, []⟩ ⟨.MEMORY_WRITE, ⟨8, 2⟩⟩ rfl

/-! ### C4: the disabled-implies-empty invariant -/

theorem stepOp_preserves_disabled {s t : PerfState} {op : PerfOp}
    (h1 : s.enabled = false) (h2 : s.basic_block_queue = [])
    (h3 : s.dynamic_info_queue = [])
    (hop : op ≠ .opEnable) (hstep : stepOp s op = some t) :
    t.enabled = false ∧ t.basic_block_queue = [] ∧ t.dynamic_info_queue = [] := by
  cases op with
  | opEnable => exact absurd rfl hop
  | opDisable =>
      simp only [stepOp] at hstep
      cases hstep
      exact ⟨rfl, h2, h3⟩
  | opQueueDynamicInstruction i =>
      have hq : queueDynamicInstruction s i = (s, true) := by
        unfold queueDynamicInstruction
        rw [if_pos (by simp [h1])]
      simp only [stepOp, hq] at hstep
      cases hstep
      exact ⟨h1, h2, h3⟩
  | opQueueBasicBlock b =>
      have hq : queueBasicBlock s b = s := by
        unfold queueBasicBlock
        rw [if_pos (by simp [h1])]
      simp only [stepOp, hq] at hstep
      cases hstep
      exact ⟨h1, h2, h3⟩
  | opPushDynamicInfo f =>
      have hq : pushDynamicInstructionInfo s f = s := by
        unfold pushDynamicInstructionInfo
        rw [if_pos (by simp [h1])]
      simp only [stepOp, hq] at hstep
      cases hstep
      exact ⟨h1, h2, h3⟩
  | opPopDynamicInfo =>
      have hq : popDynamicInstructionInfo s = .ok s := by
        unfold popDynamicInstructionInfo
        rw [if_pos (by simp [h1])]
      simp only [stepOp, hq] at hstep
      cases hstep
      exact ⟨h1, h2, h3⟩
  | opIterate =>
      have hq : iterate s = .ok s := iterate_stop (by rw [h2]; simp)
      simp only [stepOp, hq] at hstep
      cases hstep
      exact ⟨h1, h2, h3⟩
  | opSetCycleCount c =>
      simp only [stepOp] at hstep
      cases hstep
      exact ⟨h1, h2, h3⟩
  | opUpdateFrequency fq =>
      simp only [stepOp] at hstep
      cases hstep
      exact ⟨h1, h2, h3⟩
  | opRecomputeAverageFrequency =>
      simp only [stepOp] at hstep
      cases hstep
      exact ⟨h1, h2, h3⟩

theorem runOps_preserves_disabled :
    ∀ (ops : List PerfOp) {s₀ s : PerfState},
      s₀.enabled = false → s₀.basic_block_queue = [] → s₀.dynamic_info_queue = [] →
      (∀ op ∈ ops, op ≠ PerfOp.opEnable) →
      runOps s₀ ops = some s →
      s.enabled = false ∧ s.basic_block_queue = [] ∧ s.dynamic_info_queue = [] := by
  intro ops
  induction ops with
  | nil =>
      intro s₀ s h1 h2 h3 _ hrun
      cases hrun
      exact ⟨h1, h2, h3⟩
  | cons op rest ih =>
      intro s₀ s h1 h2 h3 hno hrun
      unfold runOps at hrun
      cases hstep : stepOp s₀ op with
      | none => simp only [hstep] at hrun; cases hrun
      | some t =>
          simp only [hstep] at hrun
          have ht := stepOp_preserves_disabled h1 h2 h3 (hno op (by simp)) hstep
          exact ih ht.1 ht.2.1 ht.2.2 (fun op' hop' => hno op' (by simp [hop'])) hrun

/-- Counterexample to **C4** as stated: enable, queue a basic block,
then disable.  The resulting state is reachable, has `enabled = false`,
and its basic-block queue is non-empty: `disable()` does not clear the
queues. -/
theorem enabled_false_queues_empty_cex :
    runOps (initPerfState 1 true false)
      [.opEnable, .opQueueBasicBlock ⟨false, []⟩, .opDisable] =
      some { initPerfState 1 true false with
        basic_block_queue := [⟨false, []⟩] } ∧
    ({ initPerfState 1 true false with
        basic_block_queue := [⟨false, []⟩] } : PerfState).enabled = false ∧
    ({ initPerfState 1 true false with
        basic_block_queue := [⟨false, []⟩] } : PerfState).basic_block_queue ≠ [] := by
  refine ⟨by decide, rfl, by decide⟩

/-- **C4**, amended: in every state reachable from the constructor state
without ever invoking `enable()`, the model is disabled and both the
basic-block queue and the dynamic-info queue are empty. -/
theorem never_enabled_queues_empty (ops : List PerfOp) (q : ℚ) (pm mcp : Bool)
    (s : PerfState)
    (hno : ∀ op ∈ ops, op ≠ PerfOp.opEnable)
    (hrun : runOps (initPerfState q pm mcp) ops = some s) :
    s.enabled = false ∧ s.basic_block_queue = [] ∧ s.dynamic_info_queue = [] :=
  runOps_preserves_disabled ops rfl rfl rfl hno hrun

/-- Witness for the amended C4: a disabled run that tries to queue a
block, push a fact, and iterate ends disabled with both queues empty. -/
theorem never_enabled_queues_empty_witness :
    (initPerfState 1 true false).enabled = false ∧
    (initPerfState 1 true false).basic_block_queue = [] ∧
    (initPerfState 1 true false).dynamic_info_queue = [] :=
  never_enabled_queues_empty
    [.opQueueBasicBlock ⟨false, []⟩,
     .opPushDynamicInfo ⟨.MEMORY_READ, ⟨0, 1⟩⟩, .opDisable, .opIterate]
    1 true false (initPerfState 1 true false) (by decide) (by decide)

/-! ### C7: the dynamic-info queue soft cap -/

theorem runOps_pushes (f : DynamicInstructionInfo) :
    ∀ (n : Nat) {s : PerfState},
      s.enabled = true → s.perf_modeling = true →
      runOps s (List.replicate n (.opPushDynamicInfo f)) =
        some { s with
          dynamic_info_queue := s.dynamic_info_queue ++ List.replicate n f } := by
  intro n
  induction n with
  | zero =>
      intro s hen hpm
      show some s = some { s with
        dynamic_info_queue := s.dynamic_info_queue ++ List.replicate 0 f }
      rw [List.replicate_zero, List.append_nil]
  | succ n ih =>
      intro s hen hpm
      show runOps s
        (.opPushDynamicInfo f :: List.replicate n (.opPushDynamicInfo f)) = _
      unfold runOps
      have hstep : stepOp s (.opPushDynamicInfo f) =
          some { s with dynamic_info_queue := s.dynamic_info_queue ++ [f] } := by
        simp only [stepOp]
        unfold pushDynamicInstructionInfo
        rw [if_neg (by simp [hen, hpm])]
      simp only [hstep]
      rw [ih (s := { s with dynamic_info_queue := s.dynamic_info_queue ++ [f] })
        hen hpm]
      simp [List.append_assoc, List.replicate_succ]

/-- Counterexample to **C7** as stated: 5001 consecutive pushes from the
freshly enabled model are all accepted — the run returns `some` state
(no fatal assertion anywhere) whose dynamic-info queue holds 5001 > 5000
entries.  `pushDynamicInstructionInfo` performs no cap check. -/
theorem dyn_queue_cap_cex :
    runOps (initPerfState 1 true false)
      (.opEnable :: List.replicate 5001 (.opPushDynamicInfo ⟨.MEMORY_READ, ⟨0, 1⟩⟩)) =
      some { initPerfState 1 true false with
        enabled := true
        dynamic_info_queue := List.replicate 5001 ⟨.MEMORY_READ, ⟨0, 1⟩⟩ } ∧
    (List.replicate 5001 (⟨.MEMORY_READ, ⟨0, 1⟩⟩ : DynamicInstructionInfo)).length =
      5001 := by
  constructor
  · conv_lhs => unfold runOps
    simp only [stepOp]
    rw [show Graphite.enable (initPerfState 1 true false) =
        { initPerfState 1 true false with enabled := true } from rfl]
    rw [runOps_pushes (⟨.MEMORY_READ, ⟨0, 1⟩⟩ : DynamicInstructionInfo) 5001
      (s := { initPerfState 1 true false with enabled := true }) rfl rfl]
    rfl
  · rw [List.length_replicate]

/-- **C7**, amended: the 5000-entry cap is enforced only by the
consumers.  With the model enabled and performance modeling on and the
queue at or beyond the cap, `popDynamicInstructionInfo` and
`getDynamicInstructionInfo` both terminate with the fatal assertion,
while `pushDynamicInstructionInfo` still appends unchecked — the queue
can exceed the cap until the next pop or peek. -/
theorem dyn_queue_cap_amended (s : PerfState) (f : DynamicInstructionInfo)
    (hen : s.enabled = true) (hpm : s.perf_modeling = true)
    (hbig : 5000 ≤ s.dynamic_info_queue.length) :
    popDynamicInstructionInfo s = .fatal ∧
    getDynamicInstructionInfo s = .fatal ∧
    (pushDynamicInstructionInfo s f).dynamic_info_queue.length =
      s.dynamic_info_queue.length + 1 := by
  refine ⟨?_, ?_, ?_⟩
  · unfold popDynamicInstructionInfo
    rw [if_neg (by simp [hen, hpm]), if_pos (by omega), if_neg (by omega)]
  · unfold getDynamicInstructionInfo
    cases hq : s.dynamic_info_queue with
    | nil => rw [hq] at hbig; simp at hbig
    | cons g t =>
        show (if (g :: t).length < 5000 then GetDynOut.ok g else .fatal) = .fatal
        rw [if_neg (by rw [hq] at hbig; omega)]
  · unfold pushDynamicInstructionInfo
    rw [if_neg (by simp [hen, hpm])]
    simp

/-- Witness for the amended C7 at a queue holding exactly 5000 facts. -/
theorem dyn_queue_cap_amended_witness :
    popDynamicInstructionInfo
      { initPerfState 1 true false with
        enabled := true
        dynamic_info_queue := List.replicate 5000 ⟨.MEMORY_READ, ⟨0, 1⟩⟩ } = .fatal ∧
    getDynamicInstructionInfo
      { initPerfState 1 true false with
        enabled := true
        dynamic_info_queue := List.replicate 5000 ⟨.MEMORY_READ, ⟨0, 1⟩⟩ } = .fatal ∧
    (pushDynamicInstructionInfo
      { initPerfState 1 true false with
        enabled := true
        dynamic_info_queue := List.replicate 5000 ⟨.MEMORY_READ, ⟨0, 1⟩⟩ }
      ⟨.MEMORY_WRITE, ⟨0, 2⟩⟩).dynamic_info_queue.length =
      ({ initPerfState 1 true false with
        enabled := true
        dynamic_info_queue :=
          List.replicate 5000 ⟨.MEMORY_READ, ⟨0, 1⟩⟩ } : PerfState).dynamic_info_queue.length + 1 :=
  dyn_queue_cap_amended
    { initPerfState 1 true false with
      enabled := true
      dynamic_info_queue := List.replicate 5000 ⟨.MEMORY_READ, ⟨0, 1⟩⟩ }
    ⟨.MEMORY_WRITE, ⟨0, 2⟩⟩ rfl rfl
    (by simp only [List.length_replicate, le_refl])

/-! ### C6: MCP broadcast trace -/

theorem flatMap_pair_length (F G : Nat → NetEvent) (n : Nat) :
    ((List.range n).flatMap fun p => [F p, G p]).length = 2 * n := by
  induction n with
  | zero => rfl
  | succ n ih =>
      rw [List.range_succ, List.flatMap_append, List.length_append, ih]
      simp only [List.flatMap_cons, List.flatMap_nil, List.append_nil,
        List.length_cons, List.length_nil]
      omega

theorem flatMap_pair_getElem (F G : Nat → NetEvent) :
    ∀ (n i : Nat), i < n →
      ((List.range n).flatMap fun p => [F p, G p])[2 * i]? = some (F i) ∧
      ((List.range n).flatMap fun p => [F p, G p])[2 * i + 1]? = some (G i) := by
  intro n
  induction n with
  | zero => intro i hi; exact absurd hi (Nat.not_lt_zero i)
  | succ n ih =>
      intro i hi
      rw [List.range_succ, List.flatMap_append]
      by_cases hcase : i < n
      · have h2 : 2 * i < ((List.range n).flatMap fun p => [F p, G p]).length := by
          rw [flatMap_pair_length]; omega
        have h3 : 2 * i + 1 < ((List.range n).flatMap fun p => [F p, G p]).length := by
          rw [flatMap_pair_length]; omega
        rw [List.getElem?_append_left h2, List.getElem?_append_left h3]
        exact ih i hcase
      · have hieq : i = n := by omega
        subst hieq
        have hlen : ((List.range i).flatMap fun p => [F p, G p]).length = 2 * i :=
          flatMap_pair_length F G i
        constructor
        · rw [List.getElem?_append_right (le_of_eq hlen), hlen]
          simp only [List.flatMap_cons, List.flatMap_nil, List.append_nil,
            Nat.sub_self]
          rfl
        · rw [List.getElem?_append_right (by rw [hlen]; omega), hlen]
          have hidx : 2 * i + 1 - 2 * i = 1 := by omega
          rw [hidx]
          simp only [List.flatMap_cons, List.flatMap_nil, List.append_nil]
          rfl

/-- **C6**: for a process-directed broadcast with P processes, the MCP's
network trace has exactly 2P events: for every i < P, event 2i is a send
whose sender has been replaced by the MCP core id and whose receiver is
the first core of process i (ascending process order), and event 2i+1
is a blocking receive matching only MCP_RESPONSE — so each send after
the first occurs only after the response to the previous send, and the
broadcast completes only after exactly one response per process. -/
theorem broadcastPacketToProcesses_spec (cfg : McpConfig) (pkt : NetPacket) :
    (broadcastPacketToProcesses cfg pkt).length = 2 * cfg.processCount ∧
    ∀ i, i < cfg.processCount →
      (broadcastPacketToProcesses cfg pkt)[2 * i]? =
        some (.send { pkt with
          sender := cfg.mcpCoreNum
          receiver := (cfg.coreListForProcess i).headD 0 }) ∧
      (broadcastPacketToProcesses cfg pkt)[2 * i + 1]? =
        some (.recv [.MCP_RESPONSE]) := by
  unfold broadcastPacketToProcesses
  exact ⟨flatMap_pair_length _ _ _, fun i hi => flatMap_pair_getElem _ _ _ i hi⟩

/-- Witness for C6 at P = 3 processes: six events; the second send goes
to the first core of process 1 and is followed by a response receive. -/
theorem broadcastPacketToProcesses_spec_witness :
    (broadcastPacketToProcesses
        { mcpCoreNum := 9, processCount := 3, totalCores := 12,
          coreListForProcess := fun p => [4 * p, 4 * p + 1] }
        { sender := 2, receiver := 0, ptype := .MCP_REQUEST }).length = 6 ∧
    (broadcastPacketToProcesses
        { mcpCoreNum := 9, processCount := 3, totalCores := 12,
          coreListForProcess := fun p => [4 * p, 4 * p + 1] }
        { sender := 2, receiver := 0, ptype := .MCP_REQUEST })[2]? =
      some (.send { sender := 9, receiver := 4, ptype := .MCP_REQUEST }) ∧
    (broadcastPacketToProcesses
        { mcpCoreNum := 9, processCount := 3, totalCores := 12,
          coreListForProcess := fun p => [4 * p, 4 * p + 1] }
        { sender := 2, receiver := 0, ptype := .MCP_REQUEST })[3]? =
      some (.recv [.MCP_RESPONSE]) := by
  have h := broadcastPacketToProcesses_spec
    { mcpCoreNum := 9, processCount := 3, totalCores := 12,
      coreListForProcess := fun p => [4 * p, 4 * p + 1] }
    { sender := 2, receiver := 0, ptype := .MCP_REQUEST }
  have hi := h.2 1 (by decide)
  exact ⟨h.1.trans (by decide), hi.1.trans (by decide), hi.2.trans (by decide)⟩

/-! ### C8: LCP THREAD_EXIT payload offsets -/

theorem lcp_thread_exit_dispatch (t : LcpMessageTags) (pkt : List Nat)
    (h0 : readU32 pkt 0 = t.thread_exit)
    (h1 : t.thread_exit ≠ t.quit) (h2 : t.thread_exit ≠ t.commid_update)
    (h3 : t.thread_exit ≠ t.simulator_finished)
    (h4 : t.thread_exit ≠ t.simulator_finished_ack)
    (h5 : t.thread_exit ≠ t.thread_spawn_request_from_requester)
    (h6 : t.thread_exit ≠ t.thread_spawn_request_from_master)
    (h7 : t.thread_exit ≠ t.thread_spawn_reply_from_slave) :
    processPacket t pkt = .threadExit (readU32 pkt 4) (readU64 pkt 36) := by
  unfold processPacket
  simp only [h0]
  rw [if_neg h1, if_neg h2, if_neg h3, if_neg h4, if_neg h5, if_neg h6, if_neg h7,
    if_pos trivial]

/-- **C8** (code bug): on a THREAD_EXIT packet laid out per the protocol
— tag, then thread_id 5 in bytes 4..7, then cycle_count 42 in bytes
8..15 — `LCP::processPacket` hands the thread manager cycle_count 99,
the 64-bit word at byte offset 36 (`*((UInt64*)data + 4)` moves 4 × 8
bytes past `data`), while the intended contiguous `{thread_id,
cycle_count}` payload yields 42. -/
theorem lcp_thread_exit_wrong_offset :
    processPacket ⟨0, 1, 2, 3, 4, 5, 6, 7, 8⟩
        ([7, 0, 0, 0, 5, 0, 0, 0, 42, 0, 0, 0, 0, 0, 0, 0] ++
          List.replicate 20 0 ++ [99, 0, 0, 0, 0, 0, 0, 0]) =
      .threadExit 5 99 ∧
    intendedThreadExitAction
        ([7, 0, 0, 0, 5, 0, 0, 0, 42, 0, 0, 0, 0, 0, 0, 0] ++
          List.replicate 20 0 ++ [99, 0, 0, 0, 0, 0, 0, 0]) =
      .threadExit 5 42 := by
  constructor
  · have h := lcp_thread_exit_dispatch ⟨0, 1, 2, 3, 4, 5, 6, 7, 8⟩
      ([7, 0, 0, 0, 5, 0, 0, 0, 42, 0, 0, 0, 0, 0, 0, 0] ++
        List.replicate 20 0 ++ [99, 0, 0, 0, 0, 0, 0, 0])
      (by decide) (by decide) (by decide) (by decide) (by decide) (by decide)
      (by decide) (by decide)
    exact h.trans (by decide)
  · decide

end Graphite
